import Mathlib

/-!
Verification of the expense-tracker application (`main.py`).

The program is a single-window CRUD shell over one SQLite table

  expenses(id INTEGER PRIMARY KEY AUTOINCREMENT,
           date TEXT NOT NULL,
           category TEXT NOT NULL,
           amount REAL NOT NULL CHECK(amount > 0),
           description TEXT NOT NULL)

We embed the persistent state as a list of rows together with the
AUTOINCREMENT counter, the SQL statements of `setup_database`,
`add_expense`, `delete_expense`, `load_table` and `update_total` as pure
functions on that state, and the form-level validation of `add_expense`
(including models of Python's `str.strip` and `float`, and of the Qt
amount validator regular expression) as string functions.  Amounts are
modelled as rationals.
-/

/-- One row of the `expenses` table. -/
structure Expense where
  id : Nat
  date : String
  category : String
  amount : Rat
  description : String
deriving DecidableEq, Repr

/-- The fixed category set added to `category_dropdown` in `create_widgets`. -/
def categories : List String :=
  ["Food", "Transport", "Bills", "Shopping", "Entertainment", "Healthcare", "Others"]

/-- The persistent state: the rows of the `expenses` table together with the
SQLite AUTOINCREMENT counter (`nextId` is the id the next successful insert
will receive; with AUTOINCREMENT it never decreases, even across deletes). -/
structure DB where
  rows : List Expense
  nextId : Nat
deriving DecidableEq, Repr

/-- The state produced by `setup_database` on a fresh database file:
no rows, and AUTOINCREMENT starts handing out ids at 1. -/
def DB.empty : DB := ⟨[], 1⟩

/-- A failure reported by the storage layer.  The only constraint an
`INSERT` into `expenses` can violate in this model is `CHECK(amount > 0)`
(the NOT NULL constraints are unviolable here because every field of
`Expense` is a total value). -/
inductive StorageError where
  | checkViolation
deriving DecidableEq, Repr

/-- The `INSERT INTO expenses (date, category, amount, description)` statement
executed by `add_expense`: enforces `CHECK(amount > 0)`, assigns the
AUTOINCREMENT id and appends the new row. -/
def DB.insert (db : DB) (date category : String) (amount : Rat)
    (description : String) : Except StorageError (Nat × DB) :=
  if amount ≤ 0 then .error .checkViolation
  else .ok (db.nextId,
    { rows := db.rows ++ [⟨db.nextId, date, category, amount, description⟩],
      nextId := db.nextId + 1 })

/-- The `DELETE FROM expenses WHERE id = ?` statement executed by
`delete_expense`.  A `DELETE` cannot violate any constraint of this table,
and affecting zero rows is not an error, so it always succeeds. -/
def DB.delete (db : DB) (id : Nat) : Except StorageError DB :=
  .ok { db with rows := db.rows.filter (fun e => e.id != id) }

/-- The `SELECT id, date, category, amount, description FROM expenses
ORDER BY date DESC` query executed by `load_table`.  The sort is by the
ISO date string, descending; SQLite guarantees nothing further about the
relative order of rows with equal dates, which we model with some
particular (insertion) sort. -/
def DB.listAll (db : DB) : List Expense :=
  db.rows.insertionSort (fun a b => b.date ≤ a.date)

/-- The `SELECT SUM(amount) FROM expenses` query executed by
`update_total`, with the `or 0.0` coalescing of the NULL that SQL's SUM
returns on an empty table. -/
def DB.sumAmount (db : DB) : Rat :=
  (db.rows.map Expense.amount).sum

/-- Strip leading and trailing whitespace from a character list:
the model of Python's `str.strip()` used on the amount and description
fields in `add_expense`. -/
def stripList (cs : List Char) : List Char :=
  ((cs.dropWhile Char.isWhitespace).reverse.dropWhile Char.isWhitespace).reverse

/-- Python's `str.strip()` on strings. -/
def pyStrip (s : String) : String :=
  ⟨stripList s.data⟩

/-- Numeric value of a digit string (most significant first). -/
def digitsVal (cs : List Char) : Nat :=
  cs.foldl (fun n c => 10 * n + (c.toNat - 48)) 0

/-- Parse the part of a decimal numeral after the maximal leading digit
run `intPart`: either nothing, or a dot followed by further digits, with
at least one digit overall (`\d+`, `\d+.\d*`, `.\d+` and `\d*.\d*` forms,
exactly the unsigned numerals Python's `float` accepts without an
exponent). -/
def parseDecTail (intPart rest : List Char) : Option Rat :=
  match rest with
  | [] => if intPart.isEmpty then none else some (digitsVal intPart)
  | c :: frac =>
      if c = '.' && frac.all Char.isDigit && !(intPart.isEmpty && frac.isEmpty) then
        some ((digitsVal intPart : Rat) + (digitsVal frac : Rat) / (10 : Rat) ^ frac.length)
      else none

/-- Parse an unsigned plain decimal numeral. -/
def parseDecCore (cs : List Char) : Option Rat :=
  parseDecTail (cs.takeWhile Char.isDigit) (cs.dropWhile Char.isDigit)

/-- Model of Python's builtin `float` on the strings the amount field can
hold: it strips surrounding whitespace, handles an optional sign and then
a plain decimal numeral.  (Exponent, infinity/nan and underscore forms are
never producible through the field's input mask and are not modelled.)
Returns `none` where `float` raises `ValueError`. -/
def parsePyFloat (s : String) : Option Rat :=
  match stripList s.data with
  | [] => none
  | c :: cs =>
      if c = '-' then (parseDecCore cs).map Neg.neg
      else if c = '+' then parseDecCore cs
      else parseDecCore (c :: cs)

/-- The `try: amount = float(amount_text); if amount <= 0: raise ValueError`
block of `add_expense`: `some amount` when the text passes the amount
validation, `none` when the "Amount must be a positive number." rejection
fires. -/
def checkAmount (s : String) : Option Rat :=
  match parsePyFloat s with
  | none => none
  | some a => if a ≤ 0 then none else some a

/-- Acceptance of what may follow the maximal leading digit run: nothing,
or a dot followed by at most two digits. -/
def amountTailOk (rest : List Char) : Bool :=
  match rest with
  | [] => true
  | c :: frac => c = '.' && frac.length ≤ 2 && frac.all Char.isDigit

/-- Acceptance of the amount field's input mask
`QRegularExpressionValidator(QRegularExpression(r'^\d+\.?\d{0,2}$'))`
from `create_widgets`: one or more digits, then optionally a dot followed
by at most two digits. -/
def amountRegexAccept (cs : List Char) : Bool :=
  !(cs.takeWhile Char.isDigit).isEmpty && amountTailOk (cs.dropWhile Char.isDigit)

/-- The amount input mask on strings. -/
def amountRegexMatch (s : String) : Bool :=
  amountRegexAccept s.data

/-- The three validation rejections of `add_expense`, in the order the code
tests them. -/
inductive ValidationError where
  | emptyAmount
  | emptyDescription
  | nonPositiveAmount
deriving DecidableEq, Repr

/-- The message each `QMessageBox.warning` in `add_expense` shows. -/
def ValidationError.message : ValidationError → String
  | .emptyAmount => "Please enter an amount."
  | .emptyDescription => "Please enter a description."
  | .nonPositiveAmount => "Amount must be a positive number."

/-- Outcome of one `add_expense` invocation. -/
inductive AddOutcome where
  | validationError : ValidationError → AddOutcome
  | storageError : StorageError → AddOutcome
  | ok : Nat → AddOutcome
deriving DecidableEq, Repr

/-- The `add_expense` handler: reads the four fields, applies the three
validation rules in order (first failure returns with the database
untouched), then runs the `INSERT`.  `dateText` is the already formatted
`yyyy-MM-dd` string of the date box and `categoryText` the dropdown's
current text; `amountRaw` and `descriptionRaw` are the raw line-edit
contents. -/
def add_expense (db : DB) (dateText categoryText amountRaw descriptionRaw : String) :
    AddOutcome × DB :=
  let amount_text := pyStrip amountRaw
  let description := pyStrip descriptionRaw
  if amount_text = "" then (.validationError .emptyAmount, db)
  else if description = "" then (.validationError .emptyDescription, db)
  else
    match checkAmount amount_text with
    | none => (.validationError .nonPositiveAmount, db)
    | some amount =>
        match db.insert dateText categoryText amount description with
        | .error e => (.storageError e, db)
        | .ok (id, db') => (.ok id, db')

/-- A storage-layer operation: one `INSERT` or one `DELETE` statement. -/
inductive Op where
  | insert (date category : String) (amount : Rat) (description : String)
  | delete (id : Nat)

/-- Apply a storage operation; a failed `INSERT` (constraint violation)
leaves the table unchanged, exactly as the error branch of `add_expense`
does. -/
def applyOp (db : DB) : Op → DB
  | .insert d c a t =>
      match db.insert d c a t with
      | .error _ => db
      | .ok (_, db') => db'
  | .delete i =>
      match db.delete i with
      | .error _ => db
      | .ok db' => db'

/-- Run a sequence of storage operations from the freshly created table. -/
def run (ops : List Op) : DB :=
  ops.foldl applyOp DB.empty

/-- A user-level operation: one form submission (`add_expense`) or one
confirmed row deletion (`delete_expense` after the Yes answer). -/
inductive UIOp where
  | add (dateText categoryText amountRaw descriptionRaw : String)
  | delete (id : Nat)

/-- Apply a user-level operation to the database state. -/
def applyUI (db : DB) : UIOp → DB
  | .add d c a t => (add_expense db d c a t).2
  | .delete i =>
      match db.delete i with
      | .error _ => db
      | .ok db' => db'

/-- Run a sequence of user-level operations from the freshly created table. -/
def runUI (ops : List UIOp) : DB :=
  ops.foldl applyUI DB.empty

/-- One step of the id-recording run: apply the operation and append the
id a successful `INSERT` was assigned to the trace. -/
def traceStep (p : DB × List Nat) (op : Op) : DB × List Nat :=
  match op with
  | .insert d c a t =>
      match p.1.insert d c a t with
      | .error _ => p
      | .ok (id, db') => (db', p.2 ++ [id])
  | .delete i =>
      match p.1.delete i with
      | .error _ => p
      | .ok db' => (db', p.2)

/-- Run storage operations from a given state, recording the id each
successful `INSERT` was assigned, in order. -/
def runTrace (start : DB) (ops : List Op) : DB × List Nat :=
  ops.foldl traceStep (start, [])

/-- Well-formedness of a database state: every stored id is below the
AUTOINCREMENT counter.  Holds for every reachable state. -/
def DB.WF (db : DB) : Prop :=
  ∀ e ∈ db.rows, e.id < db.nextId

/-! ## Helper lemmas -/

/-- Applying `dropWhile` leaves a list alone when its head does not satisfy the
predicate (or when it is empty). -/
lemma dropWhile_eq_self_of_head {p : Char → Bool} {l : List Char}
    (h : ∀ c, l.head? = some c → p c = false) : l.dropWhile p = l := by
  cases l with
  | nil => rfl
  | cons a t => simp [List.dropWhile_cons, h a rfl]

/-- The head of `dropWhile p l` never satisfies `p`. -/
lemma head_dropWhile_false {p : Char → Bool} :
    ∀ {l : List Char} {c : Char}, (l.dropWhile p).head? = some c → p c = false := by
  intro l
  induction l with
  | nil => intro c h; cases h
  | cons a t ih =>
      intro c h
      by_cases hpa : p a
      · rw [List.dropWhile_cons, if_pos hpa] at h
        exact ih h
      · rw [List.dropWhile_cons, if_neg hpa] at h
        cases h
        exact Bool.eq_false_iff.mpr hpa

/-- Dropping from the reversed list and reversing back gives an initial segment of
`l`. -/
lemma reverse_dropWhile_reverse_initial (p : Char → Bool) (l : List Char) :
    ∃ t, (l.reverse.dropWhile p).reverse ++ t = l := by
  have h : ∃ u, u ++ l.reverse.dropWhile p = l.reverse := by
    generalize l.reverse = m
    induction m with
    | nil => exact ⟨[], rfl⟩
    | cons a t ih =>
        by_cases hpa : p a
        · obtain ⟨u, hu⟩ := ih
          exact ⟨a :: u, by simp [List.dropWhile_cons, hpa, hu]⟩
        · exact ⟨[], by simp [List.dropWhile_cons, hpa]⟩
  obtain ⟨u, hu⟩ := h
  refine ⟨u.reverse, ?_⟩
  have := congrArg List.reverse hu
  simpa using this

/-- The head of an initial segment is the head of the whole list (when
present). -/
lemma head_of_initial {l' t l : List Char} (h : l' ++ t = l) :
    ∀ c, l'.head? = some c → l.head? = some c := by
  intro c hc
  cases l' with
  | nil => cases hc
  | cons a r =>
      cases hc
      rw [← h]
      rfl

/-- Stripping is idempotent, as Python's `str.strip` is. -/
lemma stripList_idem (l : List Char) : stripList (stripList l) = stripList l := by
  unfold stripList
  set w := Char.isWhitespace
  have hhead : ∀ c, (l.dropWhile w).head? = some c → w c = false :=
    fun c hc => head_dropWhile_false hc
  obtain ⟨t, ht⟩ := reverse_dropWhile_reverse_initial w (l.dropWhile w)
  have h1 : (((l.dropWhile w).reverse.dropWhile w).reverse).dropWhile w
      = ((l.dropWhile w).reverse.dropWhile w).reverse := by
    refine dropWhile_eq_self_of_head ?_
    intro c hc
    exact hhead c (head_of_initial ht c hc)
  rw [h1, List.reverse_reverse]
  have h2 : ((l.dropWhile w).reverse.dropWhile w).dropWhile w
      = (l.dropWhile w).reverse.dropWhile w := by
    refine dropWhile_eq_self_of_head ?_
    intro c hc
    exact head_dropWhile_false hc
  rw [h2]

/-- Stripping a string twice is the same as stripping it once. -/
lemma pyStrip_idem (s : String) : pyStrip (pyStrip s) = pyStrip s :=
  congrArg String.mk (stripList_idem s.data)

/-- A list none of whose characters satisfies the predicate is untouched
by `dropWhile`. -/
lemma dropWhile_eq_self_of_all {p : Char → Bool} {l : List Char}
    (h : ∀ c ∈ l, p c = false) : l.dropWhile p = l := by
  refine dropWhile_eq_self_of_head ?_
  intro c hc
  cases l with
  | nil => cases hc
  | cons a t => cases hc; exact h _ (by simp)

/-- A string without whitespace characters is untouched by stripping. -/
lemma stripList_eq_self {l : List Char} (h : ∀ c ∈ l, c.isWhitespace = false) :
    stripList l = l := by
  unfold stripList
  rw [dropWhile_eq_self_of_all h,
      dropWhile_eq_self_of_all (fun c hc => h c (List.mem_reverse.mp hc)),
      List.reverse_reverse]

/-- Digits are not whitespace. -/
lemma isDigit_not_whitespace {c : Char} (h : c.isDigit = true) :
    c.isWhitespace = false := by
  by_contra hw
  rw [Bool.not_eq_false] at hw
  simp only [Char.isWhitespace, Bool.or_eq_true, decide_eq_true_eq] at hw
  rcases hw with ((h1 | h1) | h1) | h1 <;> subst h1 <;> exact absurd h (by decide)

/-- The amount check only ever accepts strictly positive values. -/
lemma checkAmount_pos {s : String} {a : Rat} (h : checkAmount s = some a) :
    0 < a := by
  unfold checkAmount at h
  split at h
  · exact absurd h (by simp)
  · split at h
    · exact absurd h (by simp)
    · rename_i hb
      injection h with h2
      rw [← h2]
      exact not_le.mp hb

/-- Two rows of a table whose ids are duplicate-free and which carry the
same id are the same row. -/
lemma eq_of_mem_of_id_eq {l : List Expense} (hnd : (l.map Expense.id).Nodup) :
    ∀ {x y : Expense}, x ∈ l → y ∈ l → x.id = y.id → x = y := by
  induction l with
  | nil => intro x y hx _ _; cases hx
  | cons a t ih =>
      rw [List.map_cons, List.nodup_cons] at hnd
      intro x y hx hy hid
      rcases List.mem_cons.mp hx with hxa | hxt
      · rcases List.mem_cons.mp hy with hya | hyt
        · rw [hxa, hya]
        · exfalso
          apply hnd.1
          have hmem : a.id ∈ t.map Expense.id := by
            rw [← hxa, hid]
            exact List.mem_map_of_mem Expense.id hyt
          exact hmem
      · rcases List.mem_cons.mp hy with hya | hyt
        · exfalso
          apply hnd.1
          have hmem : a.id ∈ t.map Expense.id := by
            rw [← hya, ← hid]
            exact List.mem_map_of_mem Expense.id hxt
          exact hmem
        · exact ih hnd.2 hxt hyt hid

/-- Deleting the id of a row present in a duplicate-free table removes
exactly that row, up to permutation. -/
lemma filter_ne_perm {l : List Expense} {e : Expense} (he : e ∈ l)
    (hnd : (l.map Expense.id).Nodup) :
    l.Perm (e :: l.filter (fun x => x.id != e.id)) := by
  induction l with
  | nil => cases he
  | cons a t ih =>
      rw [List.map_cons, List.nodup_cons] at hnd
      rcases List.mem_cons.mp he with hea | het
      · rw [hea]
        have hkeep : t.filter (fun x => x.id != a.id) = t := by
          refine List.filter_eq_self.mpr ?_
          intro x hx
          have hne : x.id ≠ a.id := by
            intro hxe
            apply hnd.1
            rw [← hxe]
            exact List.mem_map_of_mem Expense.id hx
          simpa using hne
        have hdrop : (a :: t).filter (fun x => x.id != a.id) = t := by
          rw [List.filter_cons]
          simp [hkeep]
        rw [hdrop]
      · have hane : a.id ≠ e.id := by
          intro hae
          apply hnd.1
          rw [hae]
          exact List.mem_map_of_mem Expense.id het
        have hcons : (a :: t).filter (fun x => x.id != e.id)
            = a :: t.filter (fun x => x.id != e.id) := by
          rw [List.filter_cons]
          simp [hane]
        rw [hcons]
        exact (List.Perm.cons a (ih het hnd.2)).trans (List.Perm.swap e a _)

/-- The date-descending comparison used by `listAll` is total. -/
instance : IsTotal Expense (fun a b => b.date ≤ a.date) :=
  ⟨fun a b => le_total b.date a.date⟩

/-- The date-descending comparison used by `listAll` is transitive. -/
instance : IsTrans Expense (fun a b => b.date ≤ a.date) :=
  ⟨fun _ _ _ hab hbc => le_trans hbc hab⟩

/-! ## The claims -/

/-- C3: for every state of the expenses table, `listAll` returns a
sequence sorted by date in descending order (each row's date is at least
the date of every later row); no further order among equal dates is
claimed. -/
theorem C3_listAll_sorted_by_date_desc (db : DB) :
    List.Sorted (fun a b => b.date ≤ a.date) db.listAll :=
  List.sorted_insertionSort _ _

/-- C5: deleting an id absent from the table succeeds without a
`StorageError` and leaves the table exactly unchanged. -/
theorem C5_delete_absent_is_noop (db : DB) (id : Nat)
    (h : ∀ e ∈ db.rows, e.id ≠ id) :
    db.delete id = Except.ok db := by
  have hf : db.rows.filter (fun e => e.id != id) = db.rows := by
    refine List.filter_eq_self.mpr ?_
    intro e he
    simpa using h e he
  simp [DB.delete, hf]

/-- Witness for C5 at a concrete table and absent id. -/
theorem C5_witness :
    (DB.mk [⟨1, "2024-01-05", "Food", 5, "Lunch"⟩] 2).delete 99
      = Except.ok (DB.mk [⟨1, "2024-01-05", "Food", 5, "Lunch"⟩] 2) :=
  C5_delete_absent_is_noop _ 99 (by decide)

/-- One storage operation preserves positivity of all stored amounts. -/
lemma applyOp_amount_pos {db : DB} (h : ∀ e ∈ db.rows, 0 < e.amount) (op : Op) :
    ∀ e ∈ (applyOp db op).rows, 0 < e.amount := by
  cases op with
  | insert d c a t =>
      by_cases ha : a ≤ 0
      · simpa [applyOp, DB.insert, ha] using h
      · intro e he
        simp only [applyOp, DB.insert, if_neg ha] at he
        rcases List.mem_append.mp he with h1 | h1
        · exact h e h1
        · rw [List.mem_singleton.mp h1]
          exact not_le.mp ha
  | delete i =>
      intro e he
      simp only [applyOp, DB.delete] at he
      exact h e (List.mem_of_mem_filter he)

/-- Any run of storage operations preserves positivity of all stored
amounts. -/
lemma foldl_amount_pos (ops : List Op) (db : DB)
    (h : ∀ e ∈ db.rows, 0 < e.amount) :
    ∀ e ∈ (ops.foldl applyOp db).rows, 0 < e.amount := by
  induction ops generalizing db with
  | nil => exact h
  | cons op rest ih => exact ih _ (applyOp_amount_pos h op)

/-- C2: the `amount > 0` invariant.  An insert whose amount is `≤ 0` is
rejected by the storage layer's `CHECK(amount > 0)` with a `StorageError`
and leaves the table unchanged, and no sequence of storage-level
insert/delete operations started on the fresh table can produce a
persisted record with a non-positive amount. -/
theorem C2_amount_always_positive :
    (∀ (db : DB) (d c : String) (a : Rat) (t : String), a ≤ 0 →
      db.insert d c a t = Except.error StorageError.checkViolation ∧
      applyOp db (Op.insert d c a t) = db) ∧
    (∀ ops : List Op, ∀ e ∈ (run ops).rows, 0 < e.amount) := by
  constructor
  · intro db d c a t ha
    constructor
    · simp [DB.insert, ha]
    · simp [applyOp, DB.insert, ha]
  · intro ops
    exact foldl_amount_pos ops DB.empty (by intro e he; cases he)

/-- Witness for C2: the concrete insert of amount `-1` is rejected. -/
theorem C2_witness :
    DB.empty.insert "2024-01-01" "Food" (-1) "x"
      = Except.error StorageError.checkViolation :=
  (C2_amount_always_positive.1 DB.empty "2024-01-01" "Food" (-1) "x" (by norm_num)).1

/-- One id-recording step preserves the trace invariant: the trace is
strictly increasing and bounded by the AUTOINCREMENT counter. -/
lemma traceStep_inv {p : DB × List Nat}
    (h1 : p.2.Pairwise (· < ·)) (h2 : ∀ i ∈ p.2, i < p.1.nextId) (op : Op) :
    ((traceStep p op).2.Pairwise (· < ·)) ∧
      ∀ i ∈ (traceStep p op).2, i < (traceStep p op).1.nextId := by
  cases op with
  | insert d c a t =>
      by_cases ha : a ≤ 0
      · simpa [traceStep, DB.insert, ha] using ⟨h1, h2⟩
      · simp only [traceStep, DB.insert, if_neg ha]
        constructor
        · rw [List.pairwise_append]
          refine ⟨h1, List.pairwise_singleton _ _, ?_⟩
          intro i hi j hj
          rw [List.mem_singleton.mp hj]
          exact h2 i hi
        · intro i hi
          rcases List.mem_append.mp hi with hmem | hmem
          · exact Nat.lt_succ_of_lt (h2 i hmem)
          · rw [List.mem_singleton.mp hmem]
            exact Nat.lt_succ_self _
  | delete i =>
      simpa [traceStep, DB.delete] using ⟨h1, h2⟩

/-- The trace invariant holds along any fold of `traceStep`. -/
lemma foldl_trace_inv (ops : List Op) (p : DB × List Nat)
    (h1 : p.2.Pairwise (· < ·)) (h2 : ∀ i ∈ p.2, i < p.1.nextId) :
    ((ops.foldl traceStep p).2.Pairwise (· < ·)) ∧
      ∀ i ∈ (ops.foldl traceStep p).2, i < (ops.foldl traceStep p).1.nextId := by
  induction ops generalizing p with
  | nil => exact ⟨h1, h2⟩
  | cons op rest ih =>
      obtain ⟨g1, g2⟩ := traceStep_inv h1 h2 op
      exact ih _ g1 g2

/-- C10: ids come from the AUTOINCREMENT mechanism: across any sequence of
storage-level inserts and deletes (from any starting state), the ids
handed to successful inserts are strictly increasing in order of
assignment, so each insert's id exceeds every id assigned before it and no
id is ever reused, even after the row holding it is deleted. -/
theorem C10_autoincrement_ids_strictly_increase (start : DB) (ops : List Op) :
    ((runTrace start ops).2).Pairwise (· < ·) :=
  (foldl_trace_inv ops (start, []) (List.Pairwise.nil) (by intro i hi; cases hi)).1

/-- C7: `add_expense` applies the validation rules in the fixed order
(1) amount field non-empty, (2) description non-empty after trimming,
(3) amount parses as a number and is strictly positive; the first failing
rule produces its specific message and returns with the database
unchanged (no storage call happens). -/
theorem C7_validation_order_and_no_mutation :
    (∀ (db : DB) (d c ta td : String), pyStrip ta = "" →
      add_expense db d c ta td
        = (AddOutcome.validationError ValidationError.emptyAmount, db)) ∧
    (∀ (db : DB) (d c ta td : String), pyStrip ta ≠ "" → pyStrip td = "" →
      add_expense db d c ta td
        = (AddOutcome.validationError ValidationError.emptyDescription, db)) ∧
    (∀ (db : DB) (d c ta td : String), pyStrip ta ≠ "" → pyStrip td ≠ "" →
      checkAmount (pyStrip ta) = none →
      add_expense db d c ta td
        = (AddOutcome.validationError ValidationError.nonPositiveAmount, db)) ∧
    ValidationError.emptyAmount.message = "Please enter an amount." ∧
    ValidationError.emptyDescription.message = "Please enter a description." ∧
    ValidationError.nonPositiveAmount.message = "Amount must be a positive number." := by
  refine ⟨?_, ?_, ?_, rfl, rfl, rfl⟩
  · intro db d c ta td h1
    simp [add_expense, h1]
  · intro db d c ta td h1 h2
    simp [add_expense, h1, h2]
  · intro db d c ta td h1 h2 h3
    simp [add_expense, h1, h2, h3]

/-- Witness for C7: a whitespace-only amount field is rejected as empty,
with the table untouched. -/
theorem C7_witness :
    add_expense DB.empty "2024-01-05" "Food" "  " "Lunch"
      = (AddOutcome.validationError ValidationError.emptyAmount, DB.empty) :=
  C7_validation_order_and_no_mutation.1 DB.empty "2024-01-05" "Food" "  " "Lunch"
    (by decide)

/-- Membership in `listAll` is membership in the stored rows. -/
lemma mem_listAll {db : DB} {e : Expense} : e ∈ db.listAll ↔ e ∈ db.rows :=
  (List.perm_insertionSort _ _).mem_iff

/-- C1: for every valid input (date not after today, category in the fixed
seven-element set, positive amount, description non-empty after trimming)
and every well-formed table state, the insert succeeds and `listAll` then
contains a record with exactly those field values, carrying an id distinct
from the id of every record present before the insert. -/
theorem C1_insert_then_listAll (db : DB) (today date category : String)
    (amount : Rat) (description : String) (hwf : db.WF) (hdate : date ≤ today)
    (hcat : category ∈ categories) (hamount : 0 < amount)
    (hdesc : pyStrip description ≠ "") :
    ∃ (id : Nat) (db' : DB),
      db.insert date category amount description = Except.ok (id, db') ∧
      (⟨id, date, category, amount, description⟩ : Expense) ∈ db'.listAll ∧
      ∀ e ∈ db.rows, e.id ≠ id := by
  refine ⟨db.nextId,
    ⟨db.rows ++ [⟨db.nextId, date, category, amount, description⟩], db.nextId + 1⟩,
    ?_, ?_, ?_⟩
  · rw [DB.insert, if_neg (not_le.mpr hamount)]
  · rw [mem_listAll]
    simp
  · intro e he
    exact Nat.ne_of_lt (hwf e he)

/-- Witness for C1 on a concrete non-empty table and a concrete valid
input. -/
theorem C1_witness :
    ∃ (id : Nat) (db' : DB),
      (DB.mk [⟨1, "2024-01-01", "Bills", 3, "Rent"⟩] 2).insert
          "2024-01-05" "Food" 5 "Lunch" = Except.ok (id, db') ∧
      (⟨id, "2024-01-05", "Food", 5, "Lunch"⟩ : Expense) ∈ db'.listAll ∧
      ∀ e ∈ (DB.mk [⟨1, "2024-01-01", "Bills", 3, "Rent"⟩] 2).rows, e.id ≠ id :=
  C1_insert_then_listAll _ "2024-01-05" "2024-01-05" "Food" 5 "Lunch"
    (by intro e he; fin_cases he <;> decide) (le_refl _) (by decide)
    (by norm_num) (by decide)

/-- C4: `sumAmount` on the empty table is `0` (not an error value), in
general it is the sum of the amounts of the listed records, and after
inserting amounts `12.50`, `7.25` and `100.00` into the empty table it is
`119.75`. -/
theorem C4_sumAmount_total :
    DB.empty.sumAmount = 0 ∧
    (∀ db : DB, db.sumAmount = (db.listAll.map Expense.amount).sum) ∧
    (run [Op.insert "2024-01-01" "Food" 12.50 "a",
          Op.insert "2024-01-02" "Transport" 7.25 "b",
          Op.insert "2024-01-03" "Others" 100.00 "c"]).sumAmount = 119.75 := by
  refine ⟨rfl, ?_, ?_⟩
  · intro db
    exact (List.Perm.sum_eq
      ((List.perm_insertionSort _ db.rows).map Expense.amount)).symm
  · have h1 : ¬((12.50 : Rat) ≤ 0) := by norm_num
    have h2 : ¬((7.25 : Rat) ≤ 0) := by norm_num
    have h3 : ¬((100.00 : Rat) ≤ 0) := by norm_num
    simp only [run, List.foldl, applyOp, DB.insert, DB.empty, if_neg h1, if_neg h2,
      if_neg h3, DB.sumAmount]
    norm_num

/-- Deleting one row by a duplicate-free id: the remaining rows are the
original ones minus exactly that row. -/
theorem C6_delete_existing_exact (db : DB) (e : Expense) (he : e ∈ db.rows)
    (hnd : (db.rows.map Expense.id).Nodup) :
    ∃ db' : DB, db.delete e.id = Except.ok db' ∧
      db.rows.Perm (e :: db'.rows) ∧
      (∀ x ∈ db.rows, x ≠ e → x ∈ db'.rows) ∧
      (∀ x ∈ db'.rows, x ∈ db.rows) ∧
      db'.sumAmount = db.sumAmount - e.amount := by
  refine ⟨⟨db.rows.filter (fun x => x.id != e.id), db.nextId⟩, rfl, ?_, ?_, ?_, ?_⟩
  · exact filter_ne_perm he hnd
  · intro x hx hxe
    have hne : x.id ≠ e.id := fun hid => hxe (eq_of_mem_of_id_eq hnd hx he hid)
    simpa [List.mem_filter, hx] using hne
  · intro x hx
    exact List.mem_of_mem_filter hx
  · have hsum := List.Perm.sum_eq ((filter_ne_perm he hnd).map Expense.amount)
    simp only [List.map_cons, List.sum_cons] at hsum
    simp only [DB.sumAmount]
    rw [hsum]
    ring

/-- Witness for C6 on a concrete two-row table. -/
theorem C6_witness :
    ∃ db' : DB,
      (DB.mk [⟨1, "2024-01-05", "Food", 250, "Lunch"⟩,
              ⟨2, "2024-01-01", "Bills", 1000, "Rent"⟩] 3).delete 1
        = Except.ok db' ∧
      (DB.mk [⟨1, "2024-01-05", "Food", 250, "Lunch"⟩,
              ⟨2, "2024-01-01", "Bills", 1000, "Rent"⟩] 3).rows.Perm
        (⟨1, "2024-01-05", "Food", 250, "Lunch"⟩ :: db'.rows) ∧
      (∀ x ∈ (DB.mk [⟨1, "2024-01-05", "Food", 250, "Lunch"⟩,
              ⟨2, "2024-01-01", "Bills", 1000, "Rent"⟩] 3).rows,
        x ≠ ⟨1, "2024-01-05", "Food", 250, "Lunch"⟩ → x ∈ db'.rows) ∧
      (∀ x ∈ db'.rows, x ∈ (DB.mk [⟨1, "2024-01-05", "Food", 250, "Lunch"⟩,
              ⟨2, "2024-01-01", "Bills", 1000, "Rent"⟩] 3).rows) ∧
      db'.sumAmount = (DB.mk [⟨1, "2024-01-05", "Food", 250, "Lunch"⟩,
              ⟨2, "2024-01-01", "Bills", 1000, "Rent"⟩] 3).sumAmount
        - (250 : Rat) :=
  C6_delete_existing_exact _ ⟨1, "2024-01-05", "Food", 250, "Lunch"⟩
    (by decide) (by decide)

/-- A numeral accepted after the digit run parses to a non-negative value
that is an integer number of hundredths (at most two decimal places). -/
lemma parseDecTail_spec (ip rest : List Char) (hip : ip.isEmpty = false)
    (htail : amountTailOk rest = true) :
    ∃ a : Rat, parseDecTail ip rest = some a ∧ 0 ≤ a ∧
      ∃ n : ℕ, a * 100 = (n : Rat) := by
  cases rest with
  | nil =>
      refine ⟨digitsVal ip, ?_, Nat.cast_nonneg _, ⟨digitsVal ip * 100, ?_⟩⟩
      · simp [parseDecTail, hip]
      · push_cast
        ring
  | cons d frac =>
      simp only [amountTailOk, Bool.and_eq_true, decide_eq_true_eq] at htail
      obtain ⟨⟨hd, hlen⟩, hfr⟩ := htail
      subst hd
      refine ⟨(digitsVal ip : Rat) + (digitsVal frac : Rat) / (10 : Rat) ^ frac.length,
        ?_, by positivity, ?_⟩
      · simp [parseDecTail, hip, hfr]
      · rcases (by omega : frac.length = 0 ∨ frac.length = 1 ∨ frac.length = 2)
          with h3 | h3 | h3 <;> rw [h3]
        · exact ⟨(digitsVal ip + digitsVal frac) * 100, by push_cast; field_simp; try ring⟩
        · exact ⟨digitsVal ip * 100 + digitsVal frac * 10, by push_cast; field_simp; try ring⟩
        · exact ⟨digitsVal ip * 100 + digitsVal frac, by push_cast; field_simp; try ring⟩

/-- Any string the amount field's input mask accepts is parsed by the
`float` model to a non-negative value with at most two decimal places. -/
lemma amountAccept_parse {s : String} (h : amountRegexMatch s = true) :
    ∃ a : Rat, parsePyFloat s = some a ∧ 0 ≤ a ∧ ∃ n : ℕ, a * 100 = (n : Rat) := by
  unfold amountRegexMatch amountRegexAccept at h
  rw [Bool.and_eq_true] at h
  obtain ⟨hip, htail⟩ := h
  rw [Bool.not_eq_true'] at hip
  have hchars : ∀ c ∈ s.data, c.isWhitespace = false := by
    intro c hc
    rw [← List.takeWhile_append_dropWhile Char.isDigit s.data] at hc
    rcases List.mem_append.mp hc with h1 | h1
    · exact isDigit_not_whitespace (List.mem_takeWhile_imp h1)
    · cases hrest : s.data.dropWhile Char.isDigit with
      | nil => rw [hrest] at h1; cases h1
      | cons d frac =>
          rw [hrest] at h1 htail
          simp only [amountTailOk, Bool.and_eq_true, decide_eq_true_eq] at htail
          obtain ⟨⟨hd, _⟩, hfr⟩ := htail
          rcases List.mem_cons.mp h1 with h2 | h2
          · rw [h2, hd]; decide
          · exact isDigit_not_whitespace (List.all_eq_true.mp hfr c h2)
  have hstrip : stripList s.data = s.data := stripList_eq_self hchars
  cases hcs : s.data with
  | nil => rw [hcs] at hip; simp at hip
  | cons c0 tl =>
      have hc0 : c0.isDigit = true := by
        by_contra hcd
        rw [Bool.not_eq_true] at hcd
        rw [hcs] at hip
        simp [List.takeWhile_cons, hcd] at hip
      have hneg : ¬(c0 = '-') := by
        intro hx
        rw [hx] at hc0
        exact absurd hc0 (by decide)
      have hplus : ¬(c0 = '+') := by
        intro hx
        rw [hx] at hc0
        exact absurd hc0 (by decide)
      rw [hcs] at hstrip
      have hpp : parsePyFloat s = parseDecCore (c0 :: tl) := by
        simp [parsePyFloat, hcs, hstrip, hneg, hplus]
      rw [hpp, ← hcs]
      unfold parseDecCore
      exact parseDecTail_spec _ _ hip htail

/-- C8: the amount validation step rejects the input "0", every value that
parses negative, and every string that does not parse as a number; it
accepts "12.34" with value 12.34; and every string the amount field's
two-decimal input mask admits during entry denotes a non-negative value
with at most two decimal places (an integer count of hundredths). -/
theorem C8_amount_validation :
    checkAmount "0" = none ∧
    (∀ (s : String) (a : Rat), parsePyFloat s = some a → a < 0 →
      checkAmount s = none) ∧
    (∀ s : String, parsePyFloat s = none → checkAmount s = none) ∧
    checkAmount "12.34" = some 12.34 ∧
    (∀ s : String, amountRegexMatch s = true →
      ∃ a : Rat, parsePyFloat s = some a ∧ 0 ≤ a ∧ ∃ n : ℕ, a * 100 = (n : Rat)) := by
  refine ⟨by decide, ?_, ?_, ?_, fun s h => amountAccept_parse h⟩
  · intro s a hp ha
    unfold checkAmount
    rw [hp]
    show (if a ≤ 0 then none else some a) = none
    rw [if_pos (le_of_lt ha)]
  · intro s hp
    unfold checkAmount
    rw [hp]
  · have h : parsePyFloat "12.34" = some ((12 : Rat) + (34 : Rat) / (10 : Rat) ^ 2) :=
      rfl
    unfold checkAmount
    rw [h]
    show (if ((12 : Rat) + (34 : Rat) / (10 : Rat) ^ 2) ≤ 0 then none
          else some ((12 : Rat) + (34 : Rat) / (10 : Rat) ^ 2)) = some 12.34
    rw [if_neg (by norm_num)]
    norm_num [Option.some.injEq]

/-- Witness for C8: the non-numeric input "abc" is rejected. -/
theorem C8_witness : checkAmount "abc" = none :=
  C8_amount_validation.2.2.1 "abc" (by decide)

/-- Every `add_expense` call either fails validation with the table
untouched, or performs the insert of the parsed amount and the stripped,
non-empty description (the storage error branch is unreachable from the
form, since the amount check already guarantees `amount > 0`). -/
lemma add_expense_shape (db : DB) (d c ta td : String) :
    (∃ v, add_expense db d c ta td = (AddOutcome.validationError v, db)) ∨
    ∃ a : Rat, 0 < a ∧ pyStrip td ≠ "" ∧ checkAmount (pyStrip ta) = some a ∧
      add_expense db d c ta td
        = (AddOutcome.ok db.nextId,
           ⟨db.rows ++ [⟨db.nextId, d, c, a, pyStrip td⟩], db.nextId + 1⟩) := by
  by_cases h1 : pyStrip ta = ""
  · exact Or.inl ⟨ValidationError.emptyAmount, by simp [add_expense, h1]⟩
  · by_cases h2 : pyStrip td = ""
    · exact Or.inl ⟨ValidationError.emptyDescription, by simp [add_expense, h1, h2]⟩
    · cases hca : checkAmount (pyStrip ta) with
      | none =>
          exact Or.inl ⟨ValidationError.nonPositiveAmount,
            by simp [add_expense, h1, h2, hca]⟩
      | some a =>
          have hpos := checkAmount_pos hca
          refine Or.inr ⟨a, hpos, h2, rfl, ?_⟩
          simp [add_expense, h1, h2, hca, DB.insert, not_le.mpr hpos]

/-- One user-level operation preserves the stripped-non-empty-description
invariant. -/
lemma applyUI_desc_inv {db : DB}
    (h : ∀ e ∈ db.rows, pyStrip e.description = e.description ∧ e.description ≠ "")
    (op : UIOp) :
    ∀ e ∈ (applyUI db op).rows,
      pyStrip e.description = e.description ∧ e.description ≠ "" := by
  cases op with
  | add d c ta td =>
      rcases add_expense_shape db d c ta td with ⟨v, hv⟩ | ⟨a, _, hne, _, hok⟩
      · have heq : applyUI db (UIOp.add d c ta td) = db := by
          simp [applyUI, hv]
        rw [heq]
        exact h
      · have heq : applyUI db (UIOp.add d c ta td)
            = ⟨db.rows ++ [⟨db.nextId, d, c, a, pyStrip td⟩], db.nextId + 1⟩ := by
          simp [applyUI, hok]
        rw [heq]
        intro e he
        rcases List.mem_append.mp he with h1 | h1
        · exact h e h1
        · rw [List.mem_singleton.mp h1]
          exact ⟨pyStrip_idem td, hne⟩
  | delete i =>
      intro e he
      simp only [applyUI, DB.delete] at he
      exact h e (List.mem_of_mem_filter he)

/-- The stripped-description invariant holds along any fold of
`applyUI`. -/
lemma foldl_desc_inv (ops : List UIOp) (db : DB)
    (h : ∀ e ∈ db.rows, pyStrip e.description = e.description ∧ e.description ≠ "") :
    ∀ e ∈ (ops.foldl applyUI db).rows,
      pyStrip e.description = e.description ∧ e.description ≠ "" := by
  induction ops generalizing db with
  | nil => exact h
  | cons op rest ih => exact ih _ (applyUI_desc_inv h op)

/-- C9: a successful form submission stores the submitted description with
surrounding whitespace stripped, so in every state reachable by user-level
operations each persisted description is non-empty and carries no leading
or trailing whitespace. -/
theorem C9_descriptions_stripped_invariant :
    (∀ (db : DB) (d c ta td : String) (id : Nat) (db' : DB),
      add_expense db d c ta td = (AddOutcome.ok id, db') →
      ∃ a : Rat,
        db'.rows = db.rows ++ [⟨id, d, c, a, pyStrip td⟩] ∧ pyStrip td ≠ "") ∧
    (∀ ops : List UIOp, ∀ e ∈ (runUI ops).rows,
      pyStrip e.description = e.description ∧ e.description ≠ "") := by
  constructor
  · intro db d c ta td id db' h
    rcases add_expense_shape db d c ta td with ⟨v, hv⟩ | ⟨a, _, hne, _, hok⟩
    · rw [hv] at h
      simp at h
    · rw [hok] at h
      rw [Prod.mk.injEq] at h
      obtain ⟨hout, hdb⟩ := h
      injection hout with hid
      refine ⟨a, ?_, hne⟩
      rw [← hdb, ← hid]
  · intro ops
    exact foldl_desc_inv ops DB.empty (by intro e he; cases he)

/-- Witness for C9: submitting the description " Lunch " stores "Lunch". -/
theorem C9_witness :
    ∃ a : Rat,
      (DB.mk [⟨1, "2024-01-05", "Food", 5, "Lunch"⟩] 2).rows
        = DB.empty.rows ++ [⟨1, "2024-01-05", "Food", a, pyStrip " Lunch "⟩] ∧
      pyStrip " Lunch " ≠ "" :=
  C9_descriptions_stripped_invariant.1 DB.empty "2024-01-05" "Food" "5" " Lunch " 1
    (DB.mk [⟨1, "2024-01-05", "Food", 5, "Lunch"⟩] 2) (by decide)

/-- Storage operations preserve well-formedness together with
duplicate-freedom of the stored ids (the PRIMARY KEY property). -/
lemma applyOp_WF_nodup {db : DB}
    (h : db.WF ∧ (db.rows.map Expense.id).Nodup) (op : Op) :
    (applyOp db op).WF ∧ ((applyOp db op).rows.map Expense.id).Nodup := by
  obtain ⟨hwf, hnd⟩ := h
  cases op with
  | insert d c a t =>
      by_cases ha : a ≤ 0
      · simpa [applyOp, DB.insert, ha] using ⟨hwf, hnd⟩
      · constructor
        · intro e he
          simp only [applyOp, DB.insert, if_neg ha] at he ⊢
          rcases List.mem_append.mp he with h1 | h1
          · exact Nat.lt_succ_of_lt (hwf e h1)
          · rw [List.mem_singleton.mp h1]
            exact Nat.lt_succ_self _
        · simp only [applyOp, DB.insert, if_neg ha, List.map_append, List.map_cons,
            List.map_nil]
          rw [List.nodup_append]
          refine ⟨hnd, List.nodup_singleton _, ?_⟩
          intro i hi hmem
          obtain ⟨e, he, hei⟩ := List.mem_map.mp hi
          have hlt := hwf e he
          rw [List.mem_singleton.mp hmem] at hei
          omega
  | delete i =>
      constructor
      · intro e he
        simp only [applyOp, DB.delete] at he ⊢
        exact hwf e (List.mem_of_mem_filter he)
      · simp only [applyOp, DB.delete]
        exact List.Nodup.sublist (List.Sublist.map _ (List.filter_sublist _)) hnd

/-- Every state reachable by storage operations is well-formed and has
duplicate-free ids, so the hypotheses of the insert/delete theorems hold
in every reachable state. -/
lemma run_WF_nodup (ops : List Op) :
    (run ops).WF ∧ ((run ops).rows.map Expense.id).Nodup := by
  have hstep : ∀ db : DB, db.WF ∧ (db.rows.map Expense.id).Nodup →
      (ops.foldl applyOp db).WF ∧
        ((ops.foldl applyOp db).rows.map Expense.id).Nodup := by
    induction ops with
    | nil => exact fun _ h => h
    | cons op rest ih => exact fun db h => ih _ (applyOp_WF_nodup h op)
  refine hstep DB.empty ⟨?_, ?_⟩
  · intro e he
    cases he
  · simp [DB.empty]
